import Mathlib

/-!
Shallow embedding of the normalizing-flow VAE models of
`models/vae.py` and the experiment harness `main_experiment.py`
(ensemble-normalizing-flows repository).

Real-valued tensors are modelled over `ℚ`, the exact-arithmetic stand-in
for floating point.  The square root, which has no rational counterpart,
is an explicit function argument `sqrt : ℚ → ℚ`; theorems that need
genuine square-root behaviour state the required algebraic property
(`sqrt s ^ 2 = s`) as a hypothesis on the concrete values involved.
Likewise `tanh` is an explicit function argument, and its defining range
property (values in `(-1, 1)`) is a hypothesis where a theorem needs it.
Neural-network bodies (encoder / decoder stacks, linear amortization
layers) are out of scope per the spec and enter the embedding as opaque
function parameters; everything downstream of them is translated from
the source.
-/

namespace EnsembleFlows

open Matrix

/-! ## The flow-application loop of the Sylvester `forward` methods -/

/-- The flow-application loop shared by the Sylvester VAE `forward`
methods (`OrthogonalSylvesterVAE.forward`, lines 364-391, and
`TriangularSylvesterVAE.forward`, lines 637-667, of `models/vae.py`):
`self.log_det_j` is reset to `0.`, then for `k = 0 .. K-1` flow module
`k` is applied to `z[k]`, the new latent is appended, and the step's
log-det-jacobian is added.  Returns `(z[-1], log_det_j)`. -/
def flow_loop {Z : Type} (step : ℕ → Z → Z × ℚ) : ℕ → Z → Z × ℚ
  | 0, z0 => (z0, 0)
  | k + 1, z0 =>
    let prev := flow_loop step k z0
    let out := step k prev.1
    (out.1, prev.2 + out.2)

/-- A Sylvester forward pass: flow step `k` receives `z_k` together with
step `k`'s slice of the amortized parameters (`r1[:, :, :, k]`,
`r2[:, :, :, k]`, `q_ortho[k]`, `b[:, :, :, k]`, bundled as `ps k`). -/
def sylvester_forward {Z P : Type} (flow : ℕ → Z → P → Z × ℚ) (ps : ℕ → P)
    (K : ℕ) (z0 : Z) : Z × ℚ :=
  flow_loop (fun k z => flow k z (ps k)) K z0

/-- The latent trajectory as the spec words it: `z_{k+1}` is flow step `k`
applied to `z_k` with step `k`'s parameter slice. -/
def zTraj {Z P : Type} (flow : ℕ → Z → P → Z × ℚ) (ps : ℕ → P) : ℕ → Z → Z
  | 0, z0 => z0
  | k + 1, z0 => (flow k (zTraj flow ps k z0) (ps k)).1

/-! ## TriangularSylvesterVAE: permutation schedule -/

/-- `torch.arange(n - 1, -1, -1)`: the descending index list
`[n-1, ..., 1, 0]` (the `flip_idx` buffer, `TriangularSylvesterVAE.__init__`,
line 568 of `models/vae.py`). -/
def arangeDesc : ℕ → List ℕ
  | 0 => []
  | n + 1 => n :: arangeDesc n

/-- The registered `flip_idx` buffer. -/
def flip_idx (D : ℕ) : List ℕ := arangeDesc D

/-- The per-step `permute_z` argument chosen in
`TriangularSylvesterVAE.forward` (lines 654-658): odd steps pass
`flip_idx`, even steps pass `None`.  The `TriangularSylvester` flow call
takes no orthogonal-matrix argument at all (line 660). -/
def triangularPermute (D k : ℕ) : Option (List ℕ) :=
  if k % 2 = 1 then some (flip_idx D) else none

/-! ## Plain VAE (no flows) -/

/-- The 6-tuple returned by every `forward` method:
`(x_mean, z_mu, z_var, log_det_jacobian, z_0, z_K)`. -/
structure ForwardOut (X : Type) (D : ℕ) where
  x_mean : X
  z_mu : Fin D → ℚ
  z_var : Fin D → ℚ
  log_det_jacobian : ℚ
  z0 : Fin D → ℚ
  zK : Fin D → ℚ

/-- `VAE.reparameterize` (lines 178-186): `std = var.sqrt()`,
`z = eps.mul(std).add_(mu)`; the random draw `eps` is an explicit input. -/
def reparameterize {D : ℕ} (sqrt : ℚ → ℚ) (mu varz eps : Fin D → ℚ) :
    Fin D → ℚ :=
  fun i => eps i * sqrt (varz i) + mu i

/-- The state of a plain `VAE` relevant to `forward`: the encoder and
decoder networks (opaque, out of scope) and the `log_det_j` attribute. -/
structure PlainVAE (X : Type) (D : ℕ) where
  encode : X → (Fin D → ℚ) × (Fin D → ℚ)
  decode : (Fin D → ℚ) → X
  log_det_j : ℚ

/-- `VAE.__init__` line 57: `self.log_det_j = self.FloatTensor(1).zero_()`
— the attribute is zero-initialized at construction. -/
def VAE_mk {X : Type} {D : ℕ} (encode : X → (Fin D → ℚ) × (Fin D → ℚ))
    (decode : (Fin D → ℚ) → X) : PlainVAE X D :=
  ⟨encode, decode, 0⟩

/-- `VAE.forward` (lines 210-220): encode, sample `z`, decode, and return
`(x_mean, z_mu, z_var, self.log_det_j, z, z)`; nothing in the body writes
to `self.log_det_j`. -/
def VAE_forward {X : Type} {D : ℕ} (m : PlainVAE X D) (sqrt : ℚ → ℚ)
    (eps : Fin D → ℚ) (x : X) : ForwardOut X D :=
  let mv := m.encode x
  let z := reparameterize sqrt mv.1 mv.2 eps
  ⟨m.decode z, mv.1, mv.2, m.log_det_j, z, z⟩

/-! ## Configuration surface (`main_experiment.py`) -/

/-- The configuration fields consumed by the claims under study
(a selection of the argparse surface of `main_experiment.py`). -/
structure ExpArgs where
  flow : String
  z_size : ℤ
  num_ortho_vecs : ℤ
  num_householder : ℤ
  regularization_rate : ℚ
  num_components : ℕ

/-- The argparse `choices` list of `--flow` (line 83 of
`main_experiment.py`). -/
def flowChoices : List String :=
  ["planar", "radial", "iaf", "liniaf", "affine", "nlsq", "realnvp",
   "householder", "orthogonal", "triangular", "no_flow", "boosted"]

/-- The validation performed before a model exists: argparse rejects a
`--flow` value outside its `choices` list while parsing, and
`parse_args` itself raises `ValueError` for a boosted run with
`regularization_rate < 0` (lines 152-154). -/
def parse_args_check (a : ExpArgs) : Except String ExpArgs :=
  if a.flow ∉ flowChoices then .error "argument --flow: invalid choice"
  else if a.flow = "boosted" ∧ a.regularization_rate < 0 then
    .error "For boosting the regularization rate should be greater than or equal to zero."
  else .ok a

/-- The model classes `init_model` can build. -/
inductive ModelKind where
  | plain
  | boosted
  | planar
  | radial
  | liniaf
  | affine
  | nlsq
  | iaf
  | realnvp
  | orthogonalSylvester
  | householderSylvester
  | triangularSylvester

/-- `init_model` (lines 175-203 of `main_experiment.py`) together with
the construction-time assertions of the constructors that live in
`models/vae.py`: `OrthogonalSylvesterVAE.__init__` asserts
`num_ortho_vecs <= z_size and num_ortho_vecs > 0` (line 239) and
`HouseholderSylvesterVAE.__init__` asserts `num_householder > 0`
(line 409); an unmatched flow name hits the final
`raise ValueError('Invalid flow choice')`.  Constructors whose sources
are outside `models/vae.py` are modelled as succeeding. -/
def init_model (a : ExpArgs) : Except String ModelKind :=
  if a.flow = "no_flow" then .ok .plain
  else if a.flow = "boosted" then .ok .boosted
  else if a.flow = "planar" then .ok .planar
  else if a.flow = "radial" then .ok .radial
  else if a.flow = "liniaf" then .ok .liniaf
  else if a.flow = "affine" then .ok .affine
  else if a.flow = "nlsq" then .ok .nlsq
  else if a.flow = "iaf" then .ok .iaf
  else if a.flow = "realnvp" then .ok .realnvp
  else if a.flow = "orthogonal" then
    if 0 < a.num_ortho_vecs ∧ a.num_ortho_vecs ≤ a.z_size then
      .ok .orthogonalSylvester
    else .error "AssertionError"
  else if a.flow = "householder" then
    if 0 < a.num_householder then .ok .householderSylvester
    else .error "AssertionError"
  else if a.flow = "triangular" then .ok .triangularSylvester
  else .error "Invalid flow choice"

/-- The start of `main`: parse the arguments, then build the model —
both strictly before `train` is ever called. -/
def setup_model (a : ExpArgs) : Except String ModelKind :=
  (parse_args_check a).bind init_model

/-! ## `VAE.create_encoder` / `VAE.create_decoder` input types -/

/-- Marker for the encoder sub-networks (their layer stacks are out of
scope). -/
inductive EncoderNet where
  | binaryNet
  | multinomialNet

/-- Marker for the decoder sub-networks. -/
inductive DecoderNet where
  | binaryNet
  | multinomialNet

/-- `VAE.create_encoder` (lines 70-121 of `models/vae.py`): returns the
triple `(q_z_nn, q_z_mean, q_z_var)` for the `binary` and `multinomial`
branches; there is no `else` branch, so any other `input_type` falls off
the end of the function and returns Python `None`. -/
def create_encoder (input_type : String) :
    Option (EncoderNet × EncoderNet × EncoderNet) :=
  if input_type = "binary" then
    some (.binaryNet, .binaryNet, .binaryNet)
  else if input_type = "multinomial" then
    some (.multinomialNet, .multinomialNet, .multinomialNet)
  else none

/-- `VAE.create_decoder` (lines 123-176): returns `(p_x_nn, p_x_mean)`
for the two known input types and otherwise raises
`ValueError('invalid input type!!')`. -/
def create_decoder (input_type : String) :
    Except String (DecoderNet × DecoderNet) :=
  if input_type = "binary" then .ok (.binaryNet, .binaryNet)
  else if input_type = "multinomial" then .ok (.multinomialNet, .multinomialNet)
  else .error "invalid input type!!"

/-- The Python exceptions a `VAE` construction can surface here. -/
inductive PyExc where
  | typeError
  | valueError (msg : String)
deriving DecidableEq

/-- `VAE.__init__` lines 46-48: unless `args.density_evaluation` is set,
first `self.q_z_nn, self.q_z_mean, self.q_z_var = self.create_encoder()`
— tuple-unpacking the result, which raises `TypeError` when the result
is `None` — and only then `self.p_x_nn, self.p_x_mean = self.create_decoder()`,
whose own failure mode is the `ValueError`. -/
def VAE_init_nets (density_evaluation : Bool) (input_type : String) :
    Except PyExc
      (Option ((EncoderNet × EncoderNet × EncoderNet) × (DecoderNet × DecoderNet))) :=
  if density_evaluation then .ok none
  else
    match create_encoder input_type with
    | none => .error .typeError
    | some enc =>
      match create_decoder input_type with
      | .error msg => .error (.valueError msg)
      | .ok dec => .ok (some (enc, dec))

/-! ## Sylvester encoder: amortized triangular `r1`, `r2` -/

/-- The strictly-upper-triangular mask
`torch.triu(torch.ones(M, M), diagonal=1)` registered as `triu_mask`
(`OrthogonalSylvesterVAE.__init__`, line 256 of `models/vae.py`). -/
def triuMask (M : ℕ) : Matrix (Fin M) (Fin M) ℚ :=
  Matrix.of fun i j => if i < j then 1 else 0

/-- Elementwise multiplication with the broadcast `triu_mask`
(one `(batch, flow)` slice of line 350 / 351). -/
def maskUpper {M : ℕ} (A : Matrix (Fin M) (Fin M) ℚ) :
    Matrix (Fin M) (Fin M) ℚ :=
  Matrix.of fun i j => A i j * triuMask M i j

/-- The in-place diagonal write `r[:, diag_idx, diag_idx, :] = diag`
(lines 353-354). -/
def setDiag {M : ℕ} (A : Matrix (Fin M) (Fin M) ℚ) (d : Fin M → ℚ) :
    Matrix (Fin M) (Fin M) ℚ :=
  Matrix.of fun i j => if i = j then d i else A i j

/-- One `(batch, flow)` slice of the `r1` produced by
`OrthogonalSylvesterVAE.encode` (lines 342-354): the `amor_d` output
`full_d` masked to strictly-upper-triangular, its diagonal overwritten
with `amor_diag1`'s output, which is `tanh` applied to a linear layer's
pre-activation `pre1`. -/
def buildR1 {M : ℕ} (tanh : ℚ → ℚ) (full_d : Matrix (Fin M) (Fin M) ℚ)
    (pre1 : Fin M → ℚ) : Matrix (Fin M) (Fin M) ℚ :=
  setDiag (maskUpper full_d) (fun i => tanh (pre1 i))

/-- The matching `r2` slice: `full_d.transpose(2, 1)` masked, diagonal
overwritten with `amor_diag2`'s tanh output. -/
def buildR2 {M : ℕ} (tanh : ℚ → ℚ) (full_d : Matrix (Fin M) (Fin M) ℚ)
    (pre2 : Fin M → ℚ) : Matrix (Fin M) (Fin M) ℚ :=
  setDiag (maskUpper full_dᵀ) (fun i => tanh (pre2 i))

/-- Concrete inputs used to witness C7. -/
def c7Tanh : ℚ → ℚ := fun _ => 0

/-! ## OrthogonalSylvesterVAE: iterative orthogonalization -/

/-- The convergence tolerance `self.cond` chosen in
`OrthogonalSylvesterVAE.__init__` (lines 242-245 of `models/vae.py`):
`1e-5` when `num_ortho_vecs == z_size`, else `1e-6`.  (`self.steps` is
fixed to `100` on line 247.) -/
def ortho_cond (M D : ℕ) : ℚ :=
  if M = D then 1 / 100000 else 1 / 1000000

/-- The normalization at the head of
`OrthogonalSylvesterVAE.batch_construct_orthogonal` (lines 295-300):
each batch element's flattened `(z_size * num_ortho_vecs)`-row is
divided by its Euclidean norm, i.e. every entry of the matrix is divided
by the square root of the sum of squares of all its entries. -/
def normalizeMat {D M : ℕ} (sqrt : ℚ → ℚ) (A : Matrix (Fin D) (Fin M) ℚ) :
    Matrix (Fin D) (Fin M) ℚ :=
  Matrix.of fun i j => A i j / sqrt (∑ p, ∑ q, A p q ^ 2)

/-- One orthogonalization update (lines 306-309):
`tmp = I - AᵀA`, `tmp = I + 0.5 * tmp`, `A = A @ tmp`. -/
def orthoStep {D M : ℕ} (A : Matrix (Fin D) (Fin M) ℚ) :
    Matrix (Fin D) (Fin M) ℚ :=
  A * (1 + (1 / 2 : ℚ) • (1 - Aᵀ * A))

/-- The per-batch-element convergence measure of lines 312-314:
the square root of the summed squared entries of `AᵀA - I`
(the Frobenius norm of the orthogonality defect). -/
def orthoErr {D M : ℕ} (sqrt : ℚ → ℚ) (A : Matrix (Fin D) (Fin M) ℚ) : ℚ :=
  sqrt (∑ p, ∑ q, (Aᵀ * A - 1 : Matrix (Fin M) (Fin M) ℚ) p q ^ 2)

/-- `torch.max` over a list of scalars (torch rejects the empty tensor;
`0` is a junk value for that unreachable case). -/
def torchMax : List ℚ → ℚ
  | [] => 0
  | [a] => a
  | a :: b :: rest => max a (torchMax (b :: rest))

/-- The batched update: every batch element is stepped at once by the
batched matrix multiplications of lines 306-309. -/
def orthoUpdate {D M : ℕ} (B : List (Matrix (Fin D) (Fin M) ℚ)) :
    List (Matrix (Fin D) (Fin M) ℚ) :=
  B.map orthoStep

/-- `max_norm` of line 315: the maximum over the batch of the per-element
Frobenius orthogonality error. -/
def orthoErrMax {D M : ℕ} (sqrt : ℚ → ℚ)
    (B : List (Matrix (Fin D) (Fin M) ℚ)) : ℚ :=
  torchMax (B.map (orthoErr sqrt))

/-- The `for s in range(self.steps)` loop of lines 305-317, carrying the
current batch and the `max_norm` variable: update the batch, measure
`max_norm`, and `break` as soon as `max_norm <= self.cond`. -/
def orthoLoopGo {D M : ℕ} (sqrt : ℚ → ℚ) (cond : ℚ) :
    ℕ → List (Matrix (Fin D) (Fin M) ℚ) → ℚ →
      List (Matrix (Fin D) (Fin M) ℚ) × ℚ
  | 0, B, m => (B, m)
  | s + 1, B, _ =>
    let B2 := orthoUpdate B
    let m2 := orthoErrMax sqrt B2
    if m2 ≤ cond then (B2, m2) else orthoLoopGo sqrt cond s B2 m2

/-- `OrthogonalSylvesterVAE.batch_construct_orthogonal` (lines 287-326):
normalize the amortized `q`, run at most `self.steps = 100` update
iterations with early exit, and raise `ValueError` — carried here as the
`Except.error` payload, the offending `max_norm` of the f-string message
— whenever the loop left `max_norm > self.cond`.  (The final `view` /
`transpose` reshaping of lines 323-324 is shape bookkeeping on the same
matrices and is not modelled.) -/
def batch_construct_orthogonal {D M : ℕ} (sqrt : ℚ → ℚ) (cond : ℚ)
    (q : List (Matrix (Fin D) (Fin M) ℚ)) :
    Except ℚ (List (Matrix (Fin D) (Fin M) ℚ)) :=
  let r := orthoLoopGo sqrt cond 100 (q.map (normalizeMat sqrt)) 0
  if r.2 > cond then .error r.2 else .ok r.1

/-- Modelled from the spec wording of C2: the number of update
applications actually performed — the first `t ∈ [1, cap]` at which the
batch-max orthogonality error falls within tolerance, or `cap` when no
such `t` exists. -/
def specStop {D M : ℕ} (sqrt : ℚ → ℚ) (cond : ℚ)
    (B : List (Matrix (Fin D) (Fin M) ℚ)) : ℕ → ℕ
  | 0 => 0
  | s + 1 =>
    if orthoErrMax sqrt (orthoUpdate B) ≤ cond then 1
    else 1 + specStop sqrt cond (orthoUpdate B) s

/-- Modelled from the spec wording of C2: normalize first, then apply
the update `A ← A(I + ½(I - AᵀA))` exactly `specStop` times (early stop
at tolerance, cap 100), failing when the stopped state is still out of
tolerance. -/
def bcoSpec {D M : ℕ} (sqrt : ℚ → ℚ) (cond : ℚ)
    (q : List (Matrix (Fin D) (Fin M) ℚ)) :
    Except ℚ (List (Matrix (Fin D) (Fin M) ℚ)) :=
  let B0 := q.map (normalizeMat sqrt)
  let Bt := orthoUpdate^[specStop sqrt cond B0 100] B0
  if orthoErrMax sqrt Bt > cond then .error (orthoErrMax sqrt Bt)
  else .ok Bt

/-! ## HouseholderSylvesterVAE: exact orthogonal construction -/

/-- Sum of squares of a row vector. -/
def sumSq {D : ℕ} (v : Fin D → ℚ) : ℚ := ∑ j, v j ^ 2

/-- Row normalization `v = q / ||q||_2`
(`HouseholderSylvesterVAE.batch_construct_orthogonal`, lines 462-463 of
`models/vae.py`). -/
def normalizeVec {D : ℕ} (sqrt : ℚ → ℚ) (v : Fin D → ℚ) : Fin D → ℚ :=
  fun j => v j / sqrt (sumSq v)

/-- The Householder reflection built from one row of `q`:
`vvT = bmm(v.unsqueeze(2), v.unsqueeze(1))` and `amat = I - 2 vvT`
(lines 466-468). -/
def householderMatrix {D : ℕ} (sqrt : ℚ → ℚ) (v : Fin D → ℚ) :
    Matrix (Fin D) (Fin D) ℚ :=
  1 - (2 : ℚ) •
    Matrix.of (fun i j => normalizeVec sqrt v i * normalizeVec sqrt v j)

/-- The composition loop of lines 473-475: `tmp = amat[:, 0]` and then
`tmp = amat[:, k] @ tmp` for `k = 1 .. num_householder - 1`. -/
def householderChainGo {D : ℕ} (sqrt : ℚ → ℚ)
    (tmp : Matrix (Fin D) (Fin D) ℚ) :
    List (Fin D → ℚ) → Matrix (Fin D) (Fin D) ℚ
  | [] => tmp
  | v :: rest => householderChainGo sqrt (householderMatrix sqrt v * tmp) rest

/-- `HouseholderSylvesterVAE.batch_construct_orthogonal` (lines 452-480)
restricted to the `num_householder` rows of `q` belonging to one
`(batch, flow)` group: each row is normalized, turned into a Householder
reflection, and the reflections are composed by successive matrix
multiplication.  No iteration or convergence test is involved.  The
empty-list case cannot arise: `__init__` asserts `num_householder > 0`
(line 409). -/
def householder_construct_orthogonal {D : ℕ} (sqrt : ℚ → ℚ) :
    List (Fin D → ℚ) → Matrix (Fin D) (Fin D) ℚ
  | [] => 1
  | v :: rest => householderChainGo sqrt (householderMatrix sqrt v) rest

/-! ## Boosted-model optimizer parameter grouping -/

/-- A parameter name from `model.named_parameters()`, as a character
list. -/
abbrev ParamName := List Char

/-- `name.startswith("flow")` (line 219 of `main_experiment.py`). -/
def startsWithFlow (n : ParamName) : Bool :=
  "flow".toList.isPrefixOf n

/-- `pos = name.find(".")`: index of the first `'.'`, or `-1` when there
is none (line 220). -/
def firstDotPos (n : ParamName) : ℤ :=
  match n.findIdx? (fun c => c == '.') with
  | some i => (i : ℤ)
  | none => -1

/-- `component_id = name[(pos + 1):(pos + 2)]` (line 221): the Python
slice — drop `pos + 1`, keep up to position `pos + 2`. -/
def componentKey (n : ParamName) : ParamName :=
  (n.take (firstDotPos n + 2).toNat).drop (firstDotPos n + 1).toNat

/-- The dict key `f"{c}"` under which component `c`'s parameter list is
stored (line 214). -/
def keyOf (c : ℕ) : ParamName := Nat.toDigits 10 c

/-- The Python dict lookup `flow_params[component_id]` over the keys
`str(0), ..., str(C-1)`: the first component whose key equals the given
string, `none` modelling the `KeyError`. -/
def keyLookup (key : ParamName) : List ℕ → Option ℕ
  | [] => none
  | c :: rest => if keyOf c == key then some c else keyLookup key rest

/-- Where `init_optimizer` routes one named parameter: `flow`-prefixed
names to the component group whose dict key matches the one-character
slice after the first dot (`none` = `KeyError`), every other name to the
final VAE group, index `C`. -/
def targetGroup (C : ℕ) (n : ParamName) : Option ℕ :=
  if startsWithFlow n then keyLookup (componentKey n) (List.range C)
  else some C

/-- Append one name to group `i` of a list of groups (the
`flow_params[component_id].append(param)` of line 222). -/
def appendAt (gs : List (List ParamName)) (i : ℕ) (n : ParamName) :
    List (List ParamName) :=
  gs.set i (gs.getD i [] ++ [n])

/-- The `for name, param in model.named_parameters()` loop of
lines 218-226: route each parameter either into the flow-component
group dictionary (here positional: entry `c` is the list under key
`str(c)`) or into `vae_params`. -/
def assignParams (C : ℕ) :
    List ParamName → List (List ParamName) → List ParamName →
      Except Unit (List (List ParamName) × List ParamName)
  | [], fg, vae => .ok (fg, vae)
  | n :: rest, fg, vae =>
    if startsWithFlow n then
      match keyLookup (componentKey n) (List.range C) with
      | some c => assignParams C rest (appendAt fg c n) vae
      | none => .error ()
    else assignParams C rest fg (vae ++ [n])

/-- `init_optimizer` parameter grouping for a boosted model
(lines 211-239 of `main_experiment.py`): start from the empty group
dictionary `{str(c): ParameterList() for c in range(num_components)}`
and empty `vae_params`, route every parameter, and collect
`all_params = [flow_params["0"], ..., flow_params[str(C-1)], vae_params]`
— the component groups in index order followed by the VAE group. -/
def init_optimizer_groups (C : ℕ) (params : List ParamName) :
    Except Unit (List (List ParamName)) :=
  (assignParams C params (List.replicate C []) []).map
    (fun st => st.1 ++ [st.2])

/-- Concrete named-parameter list used to witness C9. -/
def c9Params : List ParamName :=
  ["flow_param.0.amor_u".toList, "flow_param.1.amor_u".toList,
   "q_z_mean.weight".toList]

/-- The groups `init_optimizer_groups` produces on `c9Params` with two
components. -/
def c9Groups : List (List ParamName) :=
  [["flow_param.0.amor_u".toList], ["flow_param.1.amor_u".toList],
   ["q_z_mean.weight".toList]]

/-- Concrete square-root table used to witness C4 (correct on the one
value the witness needs). -/
def c4Sqrt : ℚ → ℚ := fun x => if x = 25 then 5 else 0

/-- Concrete single-reflection parameter block used to witness C4. -/
def c4Rows : List (Fin 2 → ℚ) := [![3, 4]]

/-- Concrete invalid configuration used to witness C8. -/
def c8Args : ExpArgs :=
  { flow := "bogus", z_size := 64, num_ortho_vecs := 8, num_householder := 8,
    regularization_rate := 2 / 5, num_components := 2 }

end EnsembleFlows

namespace EnsembleFlows

open Matrix

/-! ## Helper lemmas -/

theorem arangeDesc_eq_reverse_range (D : ℕ) :
    arangeDesc D = (List.range D).reverse := by
  induction D with
  | zero => rfl
  | succ n ih =>
    rw [List.range_succ, List.reverse_append]
    simp [arangeDesc, ih]

theorem arangeDesc_getD (D i : ℕ) (h : i < D) :
    (arangeDesc D).getD i 0 = D - 1 - i := by
  induction D generalizing i with
  | zero => omega
  | succ n ih =>
    cases i with
    | zero => simp [arangeDesc]
    | succ j =>
      have hj : j < n := by omega
      have h2 := ih j hj
      simp only [arangeDesc, List.getD_cons_succ, h2]
      omega

theorem orthoLoopGo_succ {D M : ℕ} (sqrt : ℚ → ℚ) (cond : ℚ) (s : ℕ)
    (B : List (Matrix (Fin D) (Fin M) ℚ)) (m : ℚ) :
    orthoLoopGo sqrt cond (s + 1) B m =
      if orthoErrMax sqrt (orthoUpdate B) ≤ cond then
        (orthoUpdate B, orthoErrMax sqrt (orthoUpdate B))
      else
        orthoLoopGo sqrt cond s (orthoUpdate B)
          (orthoErrMax sqrt (orthoUpdate B)) := rfl

theorem specStop_succ {D M : ℕ} (sqrt : ℚ → ℚ) (cond : ℚ)
    (B : List (Matrix (Fin D) (Fin M) ℚ)) (s : ℕ) :
    specStop sqrt cond B (s + 1) =
      if orthoErrMax sqrt (orthoUpdate B) ≤ cond then 1
      else 1 + specStop sqrt cond (orthoUpdate B) s := rfl

theorem orthoLoopGo_spec {D M : ℕ} (sqrt : ℚ → ℚ) (cond : ℚ) :
    ∀ (s : ℕ) (B : List (Matrix (Fin D) (Fin M) ℚ)) (m : ℚ),
      orthoLoopGo sqrt cond (s + 1) B m =
        (orthoUpdate^[specStop sqrt cond B (s + 1)] B,
         orthoErrMax sqrt (orthoUpdate^[specStop sqrt cond B (s + 1)] B)) := by
  intro s
  induction s with
  | zero =>
    intro B m
    rw [orthoLoopGo_succ, specStop_succ]
    by_cases h : orthoErrMax sqrt (orthoUpdate B) ≤ cond
    · rw [if_pos h, if_pos h, Function.iterate_one]
    · rw [if_neg h, if_neg h]
      show orthoLoopGo sqrt cond 0 _ _ = _
      rw [orthoLoopGo, specStop, Function.iterate_one]
  | succ s ih =>
    intro B m
    rw [orthoLoopGo_succ, specStop_succ]
    by_cases h : orthoErrMax sqrt (orthoUpdate B) ≤ cond
    · rw [if_pos h, if_pos h, Function.iterate_one]
    · rw [if_neg h, if_neg h,
        ih (orthoUpdate B) (orthoErrMax sqrt (orthoUpdate B)),
        Nat.add_comm 1 (specStop sqrt cond (orthoUpdate B) (s + 1)),
        Function.iterate_add_apply, Function.iterate_one]

theorem householderChainGo_eq {D : ℕ} (sqrt : ℚ → ℚ)
    (l : List (Fin D → ℚ)) (tmp : Matrix (Fin D) (Fin D) ℚ) :
    householderChainGo sqrt tmp l =
      ((l.map (householderMatrix sqrt)).reverse).prod * tmp := by
  induction l generalizing tmp with
  | nil => simp [householderChainGo]
  | cons v rest ih =>
    rw [householderChainGo, ih]
    simp only [List.map_cons, List.reverse_cons, List.prod_append,
      List.prod_cons, List.prod_nil, mul_one]
    rw [mul_assoc]

theorem sumSq_normalizeVec {D : ℕ} (sqrt : ℚ → ℚ) (v : Fin D → ℚ)
    (hs : sqrt (sumSq v) ^ 2 = sumSq v) (hne : sumSq v ≠ 0) :
    sumSq (normalizeVec sqrt v) = 1 := by
  simp only [sumSq, normalizeVec, div_pow] at *
  rw [← Finset.sum_div, hs]
  exact div_self hne

theorem householderMatrix_transpose {D : ℕ} (sqrt : ℚ → ℚ) (v : Fin D → ℚ) :
    (householderMatrix sqrt v)ᵀ = householderMatrix sqrt v := by
  ext i j
  simp only [householderMatrix, Matrix.transpose_apply, Matrix.sub_apply,
    Matrix.smul_apply, Matrix.of_apply, Matrix.one_apply, smul_eq_mul]
  by_cases h : i = j
  · subst h; ring
  · rw [if_neg h, if_neg (fun hh => h hh.symm)]
    ring

theorem householderMatrix_mul_self {D : ℕ} (sqrt : ℚ → ℚ) (v : Fin D → ℚ)
    (hs : sqrt (sumSq v) ^ 2 = sumSq v) (hne : sumSq v ≠ 0) :
    householderMatrix sqrt v * householderMatrix sqrt v = 1 := by
  have h1 := sumSq_normalizeVec sqrt v hs hne
  simp only [sumSq] at h1
  set nv := normalizeVec sqrt v with hnv
  set O : Matrix (Fin D) (Fin D) ℚ := Matrix.of (fun i j => nv i * nv j) with hO
  have hOO : O * O = O := by
    ext i j
    simp only [hO, Matrix.mul_apply, Matrix.of_apply]
    have hsum : ∑ k, nv i * nv k * (nv k * nv j) =
        nv i * nv j * ∑ k, nv k ^ 2 := by
      rw [Finset.mul_sum]
      exact Finset.sum_congr rfl (fun k _ => by ring)
    rw [hsum, h1, mul_one]
  have hHH : householderMatrix sqrt v * householderMatrix sqrt v =
      1 - (2 : ℚ) • O - ((2 : ℚ) • O - ((2 : ℚ) * 2) • O) := by
    rw [householderMatrix, ← hnv, ← hO, mul_one_sub, one_sub_mul,
      smul_mul_assoc, mul_smul_comm, hOO, smul_smul]
  rw [hHH]
  module

theorem transpose_prod_mul_prod {D : ℕ}
    (L : List (Matrix (Fin D) (Fin D) ℚ))
    (h : ∀ A ∈ L, Aᵀ * A = 1) : (L.prod)ᵀ * L.prod = 1 := by
  induction L with
  | nil => simp
  | cons A L ih =>
    rw [List.prod_cons, Matrix.transpose_mul, mul_assoc,
      ← mul_assoc Aᵀ A L.prod, h A (List.mem_cons_self A L), one_mul,
      ih (fun B hB => h B (List.mem_cons_of_mem A hB))]

theorem keyLookup_mem (key : ParamName) :
    ∀ (l : List ℕ) (c : ℕ), keyLookup key l = some c →
      c ∈ l ∧ keyOf c = key := by
  intro l
  induction l with
  | nil => intro c h; exact absurd h (by rw [keyLookup]; exact fun hh => Option.noConfusion hh)
  | cons a rest ih =>
    intro c h
    rw [keyLookup] at h
    by_cases ha : keyOf a == key
    · rw [if_pos ha] at h
      have hac := Option.some.inj h
      subst hac
      exact ⟨List.mem_cons_self a rest, eq_of_beq ha⟩
    · rw [if_neg ha] at h
      obtain ⟨hmem, hkey⟩ := ih c h
      exact ⟨List.mem_cons_of_mem a hmem, hkey⟩

theorem targetGroup_cases (C : ℕ) (n : ParamName) (c : ℕ)
    (h : targetGroup C n = some c) :
    c ≤ C
    ∧ (startsWithFlow n = true → c < C ∧ keyOf c = componentKey n)
    ∧ (startsWithFlow n = false → c = C) := by
  rw [targetGroup] at h
  by_cases hf : startsWithFlow n
  · rw [if_pos hf] at h
    obtain ⟨hmem, hkey⟩ := keyLookup_mem (componentKey n) (List.range C) c h
    have hc : c < C := List.mem_range.mp hmem
    exact ⟨le_of_lt hc, fun _ => ⟨hc, hkey⟩, fun hff => absurd hf (by rw [hff]; exact fun hh => Bool.noConfusion hh)⟩
  · rw [if_neg hf] at h
    have hcC : c = C := (Option.some.inj h).symm
    exact ⟨le_of_eq hcC, fun ht => absurd ht (by simpa using hf), fun _ => hcC⟩

theorem range_map_getD_self {α : Type} (d : α) (l : List α) :
    (List.range l.length).map (fun g => l.getD g d) = l := by
  apply List.ext_getElem
  · simp
  · intro i h1 h2
    simp only [List.getElem_map, List.getElem_range]
    rw [List.getD_eq_getElem _ _ h2]

theorem getD_replicate_nil (C g : ℕ) :
    (List.replicate C ([] : List ParamName)).getD g [] = [] := by
  rcases Nat.lt_or_ge g C with h | h
  · rw [List.getD_eq_getElem _ _ (by simpa using h), List.getElem_replicate]
  · rw [List.getD_eq_default _ _ (by simpa using h)]

theorem getD_appendAt (fg : List (List ParamName)) (c : ℕ)
    (n : ParamName) (g : ℕ) (hg : g < fg.length) :
    (appendAt fg c n).getD g [] =
      if c = g then fg.getD g [] ++ [n] else fg.getD g [] := by
  have hset : g < (fg.set c (fg.getD c [] ++ [n])).length := by simpa using hg
  rw [appendAt, List.getD_eq_getElem _ _ hset, List.getElem_set]
  by_cases h : c = g
  · rw [if_pos h, if_pos h, h]
  · rw [if_neg h, if_neg h, List.getD_eq_getElem _ _ hg]

theorem assignParams_spec (C : ℕ) :
    ∀ (params : List ParamName) (fg : List (List ParamName))
      (vae : List ParamName), fg.length = C →
      assignParams C params fg vae =
        if params.all (fun n => (targetGroup C n).isSome) then
          .ok ((List.range C).map (fun g =>
                 fg.getD g [] ++
                   params.filter (fun n => targetGroup C n == some g)),
               vae ++ params.filter (fun n => targetGroup C n == some C))
        else .error () := by
  intro params
  induction params with
  | nil =>
    intro fg vae hlen
    simp only [assignParams, List.all_nil, if_pos, List.filter_nil,
      List.append_nil]
    rw [← hlen, range_map_getD_self]
  | cons n rest ih =>
    intro fg vae hlen
    have hunfold : assignParams C (n :: rest) fg vae =
        if startsWithFlow n then
          (match keyLookup (componentKey n) (List.range C) with
           | some c => assignParams C rest (appendAt fg c n) vae
           | none => .error ())
        else assignParams C rest fg (vae ++ [n]) := rfl
    rw [hunfold]
    by_cases hf : startsWithFlow n
    · rw [if_pos hf]
      have htg : targetGroup C n = keyLookup (componentKey n) (List.range C) := by
        rw [targetGroup, if_pos hf]
      cases hk : keyLookup (componentKey n) (List.range C) with
      | none =>
        have : targetGroup C n = none := by rw [htg, hk]
        simp [List.all_cons, this]
      | some c =>
        have htgc : targetGroup C n = some c := by rw [htg, hk]
        have hc : c < C :=
          List.mem_range.mp (keyLookup_mem (componentKey n) (List.range C) c hk).1
        have hlen2 : (appendAt fg c n).length = C := by
          rw [appendAt, List.length_set, hlen]
        dsimp only
        rw [ih (appendAt fg c n) vae hlen2]
        have hcond : (n :: rest).all (fun n => (targetGroup C n).isSome) =
            rest.all (fun n => (targetGroup C n).isSome) := by
          rw [List.all_cons, htgc]
          rfl
        rw [hcond]
        by_cases hall : rest.all (fun n => (targetGroup C n).isSome)
        · rw [if_pos hall, if_pos hall]
          congr 1
          rw [Prod.mk.injEq]
          refine ⟨?_, ?_⟩
          · apply List.map_congr_left
            intro g hg
            have hgC : g < fg.length := by rw [hlen]; exact List.mem_range.mp hg
            rw [getD_appendAt fg c n g hgC]
            by_cases hcg : c = g
            · subst hcg
              rw [if_pos rfl,
                List.filter_cons_of_pos (by rw [htgc]; exact beq_self_eq_true _),
                List.append_assoc, List.singleton_append]
            · rw [if_neg hcg,
                List.filter_cons_of_neg (by rw [htgc]; simpa using hcg)]
          · rw [List.filter_cons_of_neg (by rw [htgc]; simpa using Nat.ne_of_lt hc)]
        · rw [if_neg hall, if_neg hall]
    · rw [if_neg hf]
      have htgv : targetGroup C n = some C := by
        rw [targetGroup, if_neg hf]
      have hcond : (n :: rest).all (fun n => (targetGroup C n).isSome) =
          rest.all (fun n => (targetGroup C n).isSome) := by
        rw [List.all_cons, htgv]
        rfl
      rw [ih fg (vae ++ [n]) hlen, hcond]
      by_cases hall : rest.all (fun n => (targetGroup C n).isSome)
      · rw [if_pos hall, if_pos hall]
        congr 1
        rw [Prod.mk.injEq]
        refine ⟨?_, ?_⟩
        · apply List.map_congr_left
          intro g hg
          have hgC : g < C := List.mem_range.mp hg
          rw [List.filter_cons_of_neg
            (by rw [htgv]; simpa using Nat.ne_of_gt hgC)]
        · rw [List.filter_cons_of_pos (by rw [htgv]; exact beq_self_eq_true _),
            List.append_assoc, List.singleton_append]
      · rw [if_neg hall, if_neg hall]

/-! ## Claim theorems -/

/-- C1: for every flow-step count `K ≥ 0` and every input, the total
`log_det_jacobian` accumulated by the Sylvester forward loop equals the
sum, starting from zero, of the `K` per-step log-determinants taken
along the trajectory `z_0, z_1, ..., z_K` in which flow step `k` with
its parameter slice `ps k` maps `z_k` to `z_{k+1}`; and the final latent
of the loop is exactly `z_K` of that trajectory. -/
theorem C1_log_det_additivity {Z P : Type} (flow : ℕ → Z → P → Z × ℚ)
    (ps : ℕ → P) (K : ℕ) (z0 : Z) :
    (sylvester_forward flow ps K z0).2 =
      ∑ k ∈ Finset.range K, (flow k (zTraj flow ps k z0) (ps k)).2
    ∧ (sylvester_forward flow ps K z0).1 = zTraj flow ps K z0 := by
  induction K with
  | zero => simp [sylvester_forward, flow_loop, zTraj]
  | succ k ih =>
    obtain ⟨ihs, ihz⟩ := ih
    constructor
    · rw [Finset.sum_range_succ, ← ihs]
      simp only [sylvester_forward, flow_loop] at ihz ⊢
      rw [ihz]
    · simp only [sylvester_forward, flow_loop, zTraj] at ihz ⊢
      rw [ihz]

/-- C5: in `TriangularSylvesterVAE.forward`, every even flow step `2k`
passes `permute_z = None` and every odd flow step `2k+1` passes the
`flip_idx` buffer, which is exactly the reversal permutation
`[z_size-1, ..., 1, 0]` (entry `i` is `z_size - 1 - i`); no step involves
a learned orthogonal matrix. -/
theorem C5_triangular_permutation (D k : ℕ) (i : Fin D) :
    triangularPermute D (2 * k) = none
    ∧ triangularPermute D (2 * k + 1) = some (flip_idx D)
    ∧ flip_idx D = (List.range D).reverse
    ∧ (flip_idx D).getD i 0 = D - 1 - i := by
  refine ⟨?_, ?_, ?_, ?_⟩
  · rw [triangularPermute, if_neg (by omega)]
  · rw [triangularPermute, if_pos (by omega)]
  · exact arangeDesc_eq_reverse_range D
  · exact arangeDesc_getD D i i.isLt

/-- C6: the plain (no-flow) `VAE.forward` returns the zero-initialized
`log_det_j` (exactly `0`) untouched, and returns the single sampled
latent `z = reparameterize(mu, var)` as both `z_0` and `z_K`. -/
theorem C6_plain_vae_identity {X : Type} {D : ℕ}
    (encode : X → (Fin D → ℚ) × (Fin D → ℚ)) (decode : (Fin D → ℚ) → X)
    (sqrt : ℚ → ℚ) (eps : Fin D → ℚ) (x : X) :
    (VAE_forward (VAE_mk encode decode) sqrt eps x).log_det_jacobian = 0
    ∧ (VAE_forward (VAE_mk encode decode) sqrt eps x).z0 =
        (VAE_forward (VAE_mk encode decode) sqrt eps x).zK
    ∧ (VAE_forward (VAE_mk encode decode) sqrt eps x).z0 =
        reparameterize sqrt (encode x).1 (encode x).2 eps := by
  refine ⟨rfl, rfl, rfl⟩

/-- C2: `OrthogonalSylvesterVAE.batch_construct_orthogonal` first
normalizes the amortized `q` matrix and then behaves exactly as the spec
describes: it applies the update `A ← A(I + ½(I - AᵀA))` for at most 100
iterations, stopping at the first iteration whose maximum-over-batch
Frobenius orthogonality error `‖AᵀA - I‖` is within the convergence
tolerance (`bcoSpec`, modelled from the spec's words, applies the update
exactly that stopping-time many times); and the tolerance configured in
`__init__` is `1e-5` when `num_ortho_vecs = z_size` and `1e-6`
otherwise. -/
theorem C2_ortho_iteration {D M : ℕ} (sqrt : ℚ → ℚ) (cond : ℚ)
    (q : List (Matrix (Fin D) (Fin M) ℚ)) :
    batch_construct_orthogonal sqrt cond q = bcoSpec sqrt cond q
    ∧ ortho_cond M D = (if M = D then 1 / 100000 else 1 / 1000000) := by
  constructor
  · simp only [batch_construct_orthogonal, bcoSpec]
    rw [show (100 : ℕ) = 99 + 1 from rfl,
      orthoLoopGo_spec sqrt cond 99 (q.map (normalizeMat sqrt)) 0]
  · rfl

/-- C3: the outcome of `batch_construct_orthogonal` is a clean
dichotomy: either the 100-iteration cap was reached with the
orthogonality error of the final matrices still above the tolerance, in
which case the call raises `ValueError` (modelled as `Except.error`
carrying the final `max_norm` of the message) and no matrix is returned
— there is no retry path — or the returned matrices' error is within
tolerance; a non-orthogonal batch is never silently returned. -/
theorem C3_nonconvergence_raises {D M : ℕ} (sqrt : ℚ → ℚ) (cond : ℚ)
    (q : List (Matrix (Fin D) (Fin M) ℚ)) :
    (cond <
        orthoErrMax sqrt
          (orthoLoopGo sqrt cond 100 (q.map (normalizeMat sqrt)) 0).1
      ∧ batch_construct_orthogonal sqrt cond q =
          .error
            (orthoErrMax sqrt
              (orthoLoopGo sqrt cond 100 (q.map (normalizeMat sqrt)) 0).1))
    ∨ (orthoErrMax sqrt
          (orthoLoopGo sqrt cond 100 (q.map (normalizeMat sqrt)) 0).1 ≤ cond
      ∧ batch_construct_orthogonal sqrt cond q =
          .ok (orthoLoopGo sqrt cond 100 (q.map (normalizeMat sqrt)) 0).1) := by
  have hr : orthoLoopGo sqrt cond 100 (q.map (normalizeMat sqrt)) 0 =
      (orthoUpdate^[specStop sqrt cond (q.map (normalizeMat sqrt)) 100]
        (q.map (normalizeMat sqrt)),
       orthoErrMax sqrt
        (orthoUpdate^[specStop sqrt cond (q.map (normalizeMat sqrt)) 100]
          (q.map (normalizeMat sqrt)))) := by
    rw [show (100 : ℕ) = 99 + 1 from rfl,
      orthoLoopGo_spec sqrt cond 99 (q.map (normalizeMat sqrt)) 0]
  have hsnd : (orthoLoopGo sqrt cond 100 (q.map (normalizeMat sqrt)) 0).2 =
      orthoErrMax sqrt
        (orthoLoopGo sqrt cond 100 (q.map (normalizeMat sqrt)) 0).1 := by
    rw [hr]
  by_cases h : cond <
      orthoErrMax sqrt
        (orthoLoopGo sqrt cond 100 (q.map (normalizeMat sqrt)) 0).1
  · left
    refine ⟨h, ?_⟩
    simp only [batch_construct_orthogonal]
    rw [hsnd, if_pos h]
  · right
    refine ⟨le_of_not_lt h, ?_⟩
    simp only [batch_construct_orthogonal]
    rw [hsnd, if_neg h]

/-- C4: for a nonempty row list (the `__init__` assertion
`num_householder > 0`) whose rows are nonzero,
`HouseholderSylvesterVAE.batch_construct_orthogonal` returns, per
`(batch, flow)` group, exactly the matrix product
`H_{num_householder-1} * ... * H_1 * H_0` of the Householder reflections
`H_i = I - 2 v_i v_iᵀ` built from the normalized rows, with no iteration
or convergence check; and in exact arithmetic (the hypothesis `h` states
that `sqrt` is exact on each row's squared norm, and that the squared
norm — hence the row — is nonzero) the product `Q` satisfies
`Qᵀ Q = I`. -/
theorem C4_householder_orthogonal {D : ℕ} (sqrt : ℚ → ℚ)
    (vs : List (Fin D → ℚ)) (hv : vs ≠ [])
    (h : ∀ v ∈ vs, sqrt (sumSq v) ^ 2 = sumSq v ∧ sumSq v ≠ 0) :
    householder_construct_orthogonal sqrt vs =
      ((vs.map (householderMatrix sqrt)).reverse).prod
    ∧ (householder_construct_orthogonal sqrt vs)ᵀ *
        householder_construct_orthogonal sqrt vs = 1 := by
  have hprod : householder_construct_orthogonal sqrt vs =
      ((vs.map (householderMatrix sqrt)).reverse).prod := by
    cases vs with
    | nil => exact absurd rfl hv
    | cons v rest =>
      rw [householder_construct_orthogonal, householderChainGo_eq]
      simp only [List.map_cons, List.reverse_cons, List.prod_append,
        List.prod_cons, List.prod_nil, mul_one]
  refine ⟨hprod, ?_⟩
  rw [hprod]
  apply transpose_prod_mul_prod
  intro A hA
  rw [List.mem_reverse, List.mem_map] at hA
  obtain ⟨v, hvmem, rfl⟩ := hA
  rw [householderMatrix_transpose]
  exact householderMatrix_mul_self sqrt v (h v hvmem).1 (h v hvmem).2

/-- Witness for C4: a single Householder reflection built from the row
`(3, 4)`, whose norm `5` is exactly representable. -/
theorem C4_witness :
    (householder_construct_orthogonal c4Sqrt c4Rows)ᵀ *
      householder_construct_orthogonal c4Sqrt c4Rows = 1 :=
  (C4_householder_orthogonal c4Sqrt c4Rows (by simp [c4Rows])
    (by
      intro v hv
      rw [c4Rows, List.mem_singleton] at hv
      subst hv
      have hss : sumSq (![3, 4] : Fin 2 → ℚ) = 25 := by
        rw [sumSq, Fin.sum_univ_two]
        norm_num
      rw [hss]
      norm_num [c4Sqrt])).2

/-- C8: an unrecognized flow name, a `num_ortho_vecs` outside
`(0, z_size]` for the orthogonal Sylvester flow, or a negative
`regularization_rate` for a boosted model each make the
parse-then-construct pipeline return an error — a fatal exception raised
before any model (and hence any training step) exists, never a silently
corrected configuration. -/
theorem C8_config_errors_fatal (a : ExpArgs)
    (h : a.flow ∉ flowChoices
      ∨ (a.flow = "orthogonal"
          ∧ ¬(0 < a.num_ortho_vecs ∧ a.num_ortho_vecs ≤ a.z_size))
      ∨ (a.flow = "boosted" ∧ a.regularization_rate < 0)) :
    ∃ e, setup_model a = .error e := by
  rcases h with h | ⟨hf, hc⟩ | ⟨hf, hc⟩
  · exact ⟨_, by rw [setup_model, parse_args_check, if_pos h]; rfl⟩
  · refine ⟨"AssertionError", ?_⟩
    rw [setup_model, parse_args_check, if_neg, if_neg]
    · show init_model a = Except.error "AssertionError"
      rw [init_model, hf]
      rw [if_neg (by decide), if_neg (by decide), if_neg (by decide),
        if_neg (by decide), if_neg (by decide), if_neg (by decide),
        if_neg (by decide), if_neg (by decide), if_neg (by decide),
        if_pos rfl, if_neg hc]
    · rw [hf]; rintro ⟨h1, -⟩; exact absurd h1 (by decide)
    · rw [hf]; decide
  · refine ⟨"For boosting the regularization rate should be greater than or equal to zero.", ?_⟩
    rw [setup_model, parse_args_check, if_neg, if_pos ⟨hf, hc⟩]
    · rfl
    · rw [hf]; decide

/-- Witness for C8 at a concrete invalid flow name. -/
theorem C8_witness : ∃ e, setup_model c8Args = .error e :=
  C8_config_errors_fatal c8Args (Or.inl (by decide))

/-- C10: for an `input_type` other than `binary` or `multinomial`,
`create_encoder` has no matching branch and returns `None` while
`create_decoder` raises `ValueError('invalid input type!!')`; since
`VAE.__init__` unpacks the encoder result first, construction fails with
the `TypeError` from unpacking `None`, not with the decoder's
`ValueError`. -/
theorem C10_invalid_input_type (t : String)
    (h1 : t ≠ "binary") (h2 : t ≠ "multinomial") :
    create_encoder t = none
    ∧ create_decoder t = .error "invalid input type!!"
    ∧ VAE_init_nets false t = .error .typeError := by
  have he : create_encoder t = none := by
    rw [create_encoder, if_neg h1, if_neg h2]
  refine ⟨he, ?_, ?_⟩
  · rw [create_decoder, if_neg h1, if_neg h2]
  · rw [VAE_init_nets, if_neg (by simp), he]

/-- C7: every `(batch, flow)` slice of the amortized `r1` and `r2` of a
Sylvester encoder is upper-triangular — every entry strictly below the
diagonal is zero — and, because the diagonal is written from a `tanh`
activation (whose values lie in the open interval `(-1, 1)`, stated here
as the hypothesis `htanh`), every diagonal entry of `r1` and of `r2`
lies strictly between `-1` and `1`. -/
theorem C7_triangular_r1_r2 {M : ℕ} (tanh : ℚ → ℚ)
    (htanh : ∀ x, -1 < tanh x ∧ tanh x < 1)
    (full_d : Matrix (Fin M) (Fin M) ℚ) (pre1 pre2 : Fin M → ℚ) :
    (∀ i j : Fin M, j < i →
        buildR1 tanh full_d pre1 i j = 0 ∧ buildR2 tanh full_d pre2 i j = 0)
    ∧ (∀ i : Fin M,
        (-1 < buildR1 tanh full_d pre1 i i ∧ buildR1 tanh full_d pre1 i i < 1)
        ∧ (-1 < buildR2 tanh full_d pre2 i i ∧ buildR2 tanh full_d pre2 i i < 1)) := by
  constructor
  · intro i j hji
    have hne : ¬ i = j := fun h => absurd hji (by rw [h]; exact lt_irrefl j)
    have hnlt : ¬ i < j := lt_asymm hji
    constructor
    · simp only [buildR1, setDiag, maskUpper, triuMask, Matrix.of_apply]
      rw [if_neg hne, if_neg hnlt, mul_zero]
    · simp only [buildR2, setDiag, maskUpper, triuMask, Matrix.of_apply]
      rw [if_neg hne, if_neg hnlt, mul_zero]
  · intro i
    have h1 : buildR1 tanh full_d pre1 i i = tanh (pre1 i) := by
      simp [buildR1, setDiag, Matrix.of_apply]
    have h2 : buildR2 tanh full_d pre2 i i = tanh (pre2 i) := by
      simp [buildR2, setDiag, Matrix.of_apply]
    rw [h1, h2]
    exact ⟨htanh (pre1 i), htanh (pre2 i)⟩

/-- Witness for C7 at `M = 2` with a concrete in-range activation. -/
theorem C7_witness :
    buildR1 c7Tanh (1 : Matrix (Fin 2) (Fin 2) ℚ) (fun _ => 0) 1 0 = 0
    ∧ -1 < buildR1 c7Tanh (1 : Matrix (Fin 2) (Fin 2) ℚ) (fun _ => 0) 0 0
    ∧ buildR1 c7Tanh (1 : Matrix (Fin 2) (Fin 2) ℚ) (fun _ => 0) 0 0 < 1 := by
  have h := C7_triangular_r1_r2 c7Tanh
    (fun x => by constructor <;> norm_num [c7Tanh])
    (1 : Matrix (Fin 2) (Fin 2) ℚ) (fun _ => 0) (fun _ => 0)
  exact ⟨(h.1 1 0 (by decide)).1, (h.2 0).1.1, (h.2 0).1.2⟩

/-- C9: whenever `init_optimizer` finishes grouping the named parameters
of a boosted model with `num_components = C`, it produces exactly
`C + 1` optimizer groups forming an exact partition: group `g ≤ C` is
precisely the (order-preserving) sublist of parameters routed to `g`,
every parameter whose name starts with `flow` lands in the single
component group `c < C` whose dict key `str(c)` equals the
one-character component index sliced from its name after the first dot,
every other parameter lands in the final VAE group `C`, and each
parameter belongs to exactly one group — so a gradient update through
one component's group cannot touch another component's parameters. -/
theorem C9_optimizer_partition (C : ℕ) (params : List ParamName)
    (gs : List (List ParamName))
    (h : init_optimizer_groups C params = .ok gs) :
    gs.length = C + 1
    ∧ (∀ g, g ≤ C → gs.getD g [] =
        params.filter (fun n => targetGroup C n == some g))
    ∧ (∀ n ∈ params, ∃ c, targetGroup C n = some c ∧ c ≤ C
        ∧ (startsWithFlow n = true → c < C ∧ keyOf c = componentKey n)
        ∧ (startsWithFlow n = false → c = C)
        ∧ n ∈ gs.getD c []
        ∧ (∀ g, g ≤ C → n ∈ gs.getD g [] → g = c)) := by
  rw [init_optimizer_groups,
    assignParams_spec C params (List.replicate C []) []
      (List.length_replicate C [])] at h
  by_cases hall : params.all (fun n => (targetGroup C n).isSome)
  · rw [if_pos hall] at h
    simp only [Except.map] at h
    have hgs : gs =
        (List.range C).map (fun g =>
          params.filter (fun n => targetGroup C n == some g)) ++
        [params.filter (fun n => targetGroup C n == some C)] := by
      have h2 := (Except.ok.inj h).symm
      rw [h2, List.nil_append]
      congr 1
      apply List.map_congr_left
      intro g _
      rw [getD_replicate_nil, List.nil_append]
    have hlen : gs.length = C + 1 := by rw [hgs]; simp
    have hgetD : ∀ g, g ≤ C → gs.getD g [] =
        params.filter (fun n => targetGroup C n == some g) := by
      intro g hg
      rw [hgs]
      rcases Nat.lt_or_ge g C with hlt | hge
      · have hb : g < ((List.range C).map (fun g =>
            params.filter (fun n => targetGroup C n == some g)) ++
            [params.filter (fun n => targetGroup C n == some C)]).length := by
          simp
          omega
        rw [List.getD_eq_getElem _ _ hb,
          List.getElem_append_left (by simpa using hlt)]
        simp
      · have hgC : g = C := le_antisymm hg hge
        subst hgC
        have hb : g < ((List.range g).map (fun g2 =>
            params.filter (fun n => targetGroup g n == some g2)) ++
            [params.filter (fun n => targetGroup g n == some g)]).length := by
          simp
        rw [List.getD_eq_getElem _ _ hb,
          List.getElem_append_right (by simp)]
        simp
    refine ⟨hlen, hgetD, ?_⟩
    intro n hn
    have hsome : (targetGroup C n).isSome :=
      List.all_eq_true.mp hall n hn
    cases htg : targetGroup C n with
    | none => rw [htg] at hsome; exact absurd hsome (by simp)
    | some c =>
      obtain ⟨hcle, hflow, hvae⟩ := targetGroup_cases C n c htg
      refine ⟨c, rfl, hcle, hflow, hvae, ?_, ?_⟩
      · rw [hgetD c hcle]
        exact List.mem_filter.mpr ⟨hn, by rw [htg]; exact beq_self_eq_true _⟩
      · intro g hg hmem
        rw [hgetD g hg] at hmem
        have := (List.mem_filter.mp hmem).2
        have := eq_of_beq this
        rw [htg] at this
        exact (Option.some.inj this).symm
  · rw [if_neg hall] at h
    simp only [Except.map] at h
    exact Except.noConfusion h

/-- Witness for C9: two component parameters and one VAE parameter with
two components. -/
theorem C9_witness :
    init_optimizer_groups 2 c9Params = Except.ok c9Groups
    ∧ c9Groups.length = 2 + 1 :=
  ⟨by rfl, (C9_optimizer_partition 2 c9Params c9Groups (by rfl)).1⟩

/-- Witness for C10 at the concrete input type `gaussian`. -/
theorem C10_witness :
    create_encoder "gaussian" = none
    ∧ create_decoder "gaussian" = Except.error "invalid input type!!"
    ∧ VAE_init_nets false "gaussian" = Except.error PyExc.typeError :=
  C10_invalid_input_type "gaussian" (by decide) (by decide)

end EnsembleFlows
